import Mathlib

/-!
Verification of the `UploadAliyunOSS` node (`upload_aliyun_oss.py`).

The development shallowly embeds the Python code: strings are Lean
`String`s manipulated through faithful models of the Python string
primitives used by the source (`strip`, `split`, `lower`, `upper`,
`lstrip`, `rstrip`, `replace`, `startswith`, `endswith`, substring
membership, and `os.path.splitext`).  The network (the OSS SDK's
`put_object`) is modelled by an oracle giving, for each successive call,
either an HTTP status code or a raised storage fault; image encoding by
the imaging library is modelled by a tagged value recording exactly which
encoder would run (the byte output of an encoder is external to the
repository).  Timestamps (`datetime.now()` captures) are supplied as
parameters, one per processed fragment.
-/

/-- The ASCII whitespace characters stripped by Python `str.strip()`. -/
def isPyWs (c : Char) : Bool :=
  c = ' ' || c = '\t' || c = '\n' || c = '\r' || c = '\x0b' || c = '\x0c'

/-- Model of Python `str.strip()` on a character list: drop leading and
trailing whitespace. -/
def stripList (l : List Char) : List Char :=
  ((l.dropWhile isPyWs).reverse.dropWhile isPyWs).reverse

/-- Model of Python `str.strip()`. -/
def pyStrip (s : String) : String := ⟨stripList s.data⟩

/-- Model of Python `str.split("\n")` on a character list: the list of
chunks between newline characters (an empty input gives one empty chunk,
as in Python). -/
def splitNlList : List Char → List (List Char)
  | [] => [[]]
  | c :: rest =>
    let s := splitNlList rest
    if c = '\n' then [] :: s else (c :: s.headD []) :: s.tail

/-- Model of Python `str.lower()` (ASCII case mapping, as used by the
source on extensions and format names). -/
def pyLower (s : String) : String := ⟨s.data.map Char.toLower⟩

/-- Model of Python `str.upper()`. -/
def pyUpper (s : String) : String := ⟨s.data.map Char.toUpper⟩

/-- Model of Python `str.lstrip("/")`: drop every leading slash. -/
def pyLstripSlash (s : String) : String :=
  ⟨s.data.dropWhile (fun c => c = '/')⟩

/-- Model of Python `str.rstrip("/")` on a character list: drop every
trailing slash. -/
def rstripSlashList (l : List Char) : List Char :=
  (l.reverse.dropWhile (fun c => c = '/')).reverse

/-- Model of Python `str.rstrip("/")`. -/
def pyRstripSlash (s : String) : String := ⟨rstripSlashList s.data⟩

/-- Model of Python `needle in haystack` (substring containment). -/
def strContains (pat s : String) : Prop := pat.data <:+: s.data

instance (pat s : String) : Decidable (strContains pat s) :=
  inferInstanceAs (Decidable (pat.data <:+: s.data))

/-- Model of Python `s.startswith(p)`. -/
def pyStartsWith (s p : String) : Prop := p.data <+: s.data

instance (s p : String) : Decidable (pyStartsWith s p) :=
  inferInstanceAs (Decidable (p.data <+: s.data))

/-- Model of Python `s.endswith(p)`. -/
def pyEndsWith (s p : String) : Prop := p.data <:+ s.data

instance (s p : String) : Decidable (pyEndsWith s p) :=
  inferInstanceAs (Decidable (p.data <:+ s.data))

/-- Fuel-indexed worker for Python `str.replace(pat, rep)`: replace every
occurrence left to right, non-overlapping.  The fuel only makes the
recursion structural; it never runs out when it starts at the length of
the scanned list (see `replaceAllFuel_irrel`). -/
def replaceAllFuel (pat rep : List Char) : Nat → List Char → List Char
  | _, [] => []
  | 0, l => l
  | fuel + 1, c :: rest =>
    if pat ≠ [] ∧ pat <+: (c :: rest) then
      rep ++ replaceAllFuel pat rep fuel ((c :: rest).drop pat.length)
    else
      c :: replaceAllFuel pat rep fuel rest

/-- Model of Python `str.replace(pat, rep)` on character lists.  (With an
empty pattern the source never calls it; the model then leaves the list
unchanged.) -/
def replaceAll (pat rep : List Char) (l : List Char) : List Char :=
  replaceAllFuel pat rep l.length l

/-- Model of Python `str.replace` at `String` level. -/
def pyReplace (s pat rep : String) : String :=
  ⟨replaceAll pat.data rep.data s.data⟩

/-- Last index of a character in a list, if any (used to model
`str.rfind` inside `os.path.splitext`). -/
def lastIndexOf (c : Char) : List Char → Option Nat
  | [] => none
  | x :: xs =>
    match lastIndexOf c xs with
    | some i => some (i + 1)
    | none => if x = c then some 0 else none

/-- Model of `os.path.splitext` (POSIX flavour) on a character list: the
extension starts at the last dot that lies after the last slash, unless
every character of the basename before that dot is itself a dot (leading
dots of a basename never start an extension). -/
def splitExt (l : List Char) : List Char × List Char :=
  match lastIndexOf '.' l with
  | none => (l, [])
  | some d =>
    let start := match lastIndexOf '/' l with
      | none => 0
      | some s => s + 1
    if start ≤ d then
      if ((l.drop start).take (d - start)).all (fun c => c = '.') then (l, [])
      else (l.take d, l.drop d)
    else (l, [])

/-- Model of `os.path.splitext` at `String` level. -/
def pySplitext (s : String) : String × String :=
  ((⟨(splitExt s.data).1⟩ : String), (⟨(splitExt s.data).2⟩ : String))

/-- `"\n".join(items)`, as used to build the final URL string. -/
def joinNl : List String → String
  | [] => ""
  | [x] => x
  | x :: rest => x ++ "\n" ++ joinNl rest

/-! ## Destination-path derivation (`_prepare_dest_paths`, `_process_dest_path`) -/

/-- The literal placeholder token substituted by `_process_dest_path`. -/
def timestampToken : String := "\x7btimestamp\x7d"

/-- The recognized image-container extensions (`image_extensions` in the
source, used both in `_process_dest_path` and in the upload loop). -/
def image_extensions : List String := [".png", ".jpg", ".jpeg", ".webp"]

/-- The `\x7b"PNG": ".png", "JPEG": ".jpg", "WEBP": ".webp"\x7d.get(image_format.upper(), ".png")`
lookup of `_process_dest_path`. -/
def fileExtFor (image_format : String) : String :=
  if pyUpper image_format = "PNG" then ".png"
  else if pyUpper image_format = "JPEG" then ".jpg"
  else if pyUpper image_format = "WEBP" then ".webp"
  else ".png"

/-- Embedding of `_process_dest_path(dest_path, image_format)`.  The
`timestamp` argument stands for the `datetime.now().strftime(...)` value
captured by this call. -/
def _process_dest_path (dest_path : String) (image_format : String)
    (timestamp : String) : String :=
  let p := if strContains timestampToken dest_path
           then pyReplace dest_path timestampToken timestamp
           else dest_path
  let current_ext := pyLower (pySplitext p).2
  if current_ext ≠ "" ∧ current_ext ∉ image_extensions then
    pyLstripSlash p
  else
    let file_ext := fileExtFor image_format
    let p2 :=
      if ¬ ∃ e ∈ image_extensions, pyEndsWith (pyLower p) e then
        p ++ file_ext
      else if ¬ pyEndsWith (pyLower p) (pyLower file_ext) then
        (pySplitext p).1 ++ file_ext
      else p
    pyLstripSlash p2

/-- The list-comprehension of `_prepare_dest_paths`:
`[path.strip() for path in dest_path_input.strip().split("\n") if path.strip()]`,
working on the character list of the already-stripped input. -/
def fragsList (l : List Char) : List (List Char) :=
  ((splitNlList l).map stripList).filter (fun x => ¬ x.isEmpty)

/-- The fragment list derived from the raw destination template. -/
def splitFragments (s : String) : List String :=
  (fragsList (stripList s.data)).map (fun l => (⟨l⟩ : String))

/-- The suffix step of `_prepare_dest_paths` for one extra image: take the
last given fragment, insert `-<suffix_index>` before its extension (or at
the end when it has no extension). -/
def addIndexSuffix (last_path : String) (suffix_index : Nat) : String :=
  let path_without_ext := (pySplitext last_path).1
  let ext := (pySplitext last_path).2
  if ext = "" then path_without_ext ++ "-" ++ toString suffix_index
  else path_without_ext ++ "-" ++ toString suffix_index ++ ext

/-- The fragment-expansion step of `_prepare_dest_paths` (lines 288-307):
either take the first `num_images` fragments, or keep all fragments and
derive the missing ones from the last fragment with zero-based suffixes. -/
def expandPaths (dest_paths : List String) (num_images : Nat) : List String :=
  if num_images ≤ dest_paths.length then dest_paths.take num_images
  else
    dest_paths ++ (List.range (num_images - dest_paths.length)).map
      (addIndexSuffix (dest_paths.getLast?.getD ""))

/-- The final per-fragment processing loop of `_prepare_dest_paths`, each
call receiving its own timestamp capture. -/
def processAll (image_format : String) (ts : Nat → String) :
    Nat → List String → List String
  | _, [] => []
  | i, p :: rest =>
    _process_dest_path p image_format (ts i) :: processAll image_format ts (i + 1) rest

/-- Embedding of `_prepare_dest_paths(dest_path_input, num_images, image_format)`.
`ts i` is the timestamp captured while processing the `i`-th path. -/
def _prepare_dest_paths (dest_path_input : String) (num_images : Nat)
    (image_format : String) (ts : Nat → String) : List String :=
  let dest_paths := splitFragments dest_path_input
  let dest_paths := if dest_paths.isEmpty then ["comfyui/\x7btimestamp\x7d.png"]
                    else dest_paths
  processAll image_format ts 0 (expandPaths dest_paths num_images)

/-- Embedding of `_generate_file_url(endpoint, bucket_name, dest_path)`. -/
def _generate_file_url (endpoint bucket_name dest_path : String) : String :=
  let e := if ¬ pyStartsWith endpoint "http" then "https://" ++ endpoint
           else endpoint
  let e2 := pyRstripSlash e
  let base := if strContains "oss-" e2
              then pyReplace e2 "://" ("://" ++ bucket_name ++ ".")
              else e2 ++ "/" ++ bucket_name
  base ++ "/" ++ dest_path

/-! ## The `upload_image` execution model -/

/-- An in-memory image: the flattened 0-1 normalized samples of one
tensor (`images_to_process[idx]` in the source). -/
structure Img where
  pixels : List ℚ
deriving DecidableEq

/-- The `image` input of `upload_image`: either a 4-D batch or a single
3-D image (which the source unsqueezes into a batch of one). -/
inductive ImageInput
  | batch (imgs : List Img)
  | single (img : Img)
deriving DecidableEq

/-- The batch the loop iterates over (`images_to_process`). -/
def imagesOf : ImageInput → List Img
  | .batch imgs => imgs
  | .single i => [i]

/-- `(image_tensor.cpu().numpy() * 255).astype(np.uint8).tobytes()`:
scale each 0-1 sample to the 0-255 byte range (truncating, wrapping like
a uint8 cast). -/
def scaleBytes (img : Img) : List Nat :=
  img.pixels.map (fun x => (Int.toNat ⌊x * 255⌋) % 256)

/-- What the per-item branch at lines 128-190 hands to `put_object`:
either the output of one of the three library encoders (its byte content
belongs to the imaging library, so only the chosen encoder, quality and
source image are recorded), or the raw scaled pixel bytes. -/
inductive UploadData
  | encodedJpeg (quality : Nat) (img : Img)
  | encodedWebp (quality : Nat) (img : Img)
  | encodedPng (img : Img)
  | raw (bytes : List Nat)
deriving DecidableEq

/-- The pre-loop Content-Type dictionary (lines 109-113). -/
def contentTypeFor (image_format : String) : String :=
  if pyUpper image_format = "PNG" then "image/png"
  else if pyUpper image_format = "JPEG" then "image/jpeg"
  else if pyUpper image_format = "WEBP" then "image/webp"
  else "image/png"

/-- The non-image `content_type_map` of lines 175-187. -/
def content_type_map : List (String × String) :=
  [(".mp4", "video/mp4"), (".avi", "video/x-msvideo"),
   (".mov", "video/quicktime"), (".mkv", "video/x-matroska"),
   (".wmv", "video/x-ms-wmv"), (".flv", "video/x-flv"),
   (".webm", "video/webm"), (".gif", "image/gif"), (".bmp", "image/bmp"),
   (".tiff", "image/tiff"), (".tga", "image/x-tga")]

/-- Python `dict.get(key, default)` over an association list. -/
def lookupD (m : List (String × String)) (k d : String) : String :=
  match m.find? (fun p => p.1 == k) with
  | some p => p.2
  | none => d

/-- The per-item data/content-type preparation (lines 123-190): images
with a recognized destination extension go through the chosen encoder;
any other destination gets the raw scaled bytes and a content type from
`content_type_map` (defaulting to `application/octet-stream`). -/
def prepareItemData (image_format : String) (jpeg_quality : Nat)
    (img : Img) (processed_dest_path : String) : UploadData × String :=
  let current_ext := pyLower (pySplitext processed_dest_path).2
  if current_ext ∈ image_extensions then
    let d := if pyUpper image_format = "JPEG" then
               UploadData.encodedJpeg jpeg_quality img
             else if pyUpper image_format = "WEBP" then
               UploadData.encodedWebp jpeg_quality img
             else UploadData.encodedPng img
    (d, contentTypeFor image_format)
  else
    (UploadData.raw (scaleBytes img),
     lookupD content_type_map current_ext "application/octet-stream")

/-- The faults the handlers at lines 232-276 catch around the loop. -/
inductive OssFault
  | accessDenied
  | noSuchBucket
  | invalidAccessKeyId
  | signatureDoesNotMatch
  | ossError (msg : String)
  | unexpected (msg : String)
deriving DecidableEq

/-- The localized message each fault handler reports. -/
def ossFaultMessage : OssFault → String
  | .accessDenied => "❌ 访问被拒绝，请检查 AccessKey 权限"
  | .noSuchBucket => "❌ 存储桶不存在，请检查 bucket_name"
  | .invalidAccessKeyId => "❌ 无效的 AccessKey ID"
  | .signatureDoesNotMatch => "❌ 签名不匹配，请检查 AccessKey Secret"
  | .ossError msg => "❌ OSS错误: " ++ msg
  | .unexpected msg => "❌ 上传OSS时发生未知错误: " ++ msg

/-- The network oracle: the outcome of the `idx`-th `bucket.put_object`
call — an HTTP status code, or a raised storage fault. -/
def Net := Nat → Except OssFault Nat

/-- The loop-local state of `upload_image`: the accumulated `file_urls`
and `upload_results` lists, the `put_object` calls already issued (the
triple handed to each call), and the fault that aborted the loop, if
any. -/
structure LoopAcc where
  file_urls : List String
  upload_results : List String
  attempts : List (String × (UploadData × String))
  fault : Option OssFault
deriving DecidableEq

/-- The `for idx in range(num_images)` loop of `upload_image` (lines
119-219): prepare the item, issue the `put_object` call, then either
abort on a raised fault, or record success (URL + status line) or a
non-200 failure (empty URL + status line) and continue. -/
def runLoopAux (net : Net) (endpoint bucket_name image_format : String)
    (jpeg_quality : Nat) : List (Img × String) → Nat → LoopAcc → LoopAcc
  | [], _, acc => acc
  | (img, path) :: rest, idx, acc =>
    let pd := prepareItemData image_format jpeg_quality img path
    let acc1 := { acc with attempts := acc.attempts ++ [(path, pd)] }
    match net idx with
    | .error f => { acc1 with fault := some f }
    | .ok status =>
      if status = 200 then
        runLoopAux net endpoint bucket_name image_format jpeg_quality rest (idx + 1)
          { acc1 with
            file_urls := acc1.file_urls ++
              [_generate_file_url endpoint bucket_name path],
            upload_results := acc1.upload_results ++ ["上传成功: " ++ path] }
      else
        runLoopAux net endpoint bucket_name image_format jpeg_quality rest (idx + 1)
          { acc1 with
            file_urls := acc1.file_urls ++ [""],
            upload_results := acc1.upload_results ++
              ["上传失败: " ++ path ++ ", 状态码: " ++ toString status] }

/-- The value `upload_image` returns: the pass-through tuple
`(image, file_urls_str)` or the `\x7b"ui": \x7b"text": [...]\x7d\x7d` payload. -/
inductive UploadReturn
  | imageOut (image : ImageInput) (file_urls : String)
  | uiText (lines : List String)
deriving DecidableEq

/-- One observed execution of `upload_image`: its return value plus the
instrumented loop state (which `put_object` calls were issued, what was
accumulated, and which fault aborted the loop if any). -/
structure Exec where
  ret : UploadReturn
  attempts : List (String × (UploadData × String))
  loop_file_urls : List String
  loop_results : List String
  fault : Option OssFault
deriving DecidableEq

/-- The fail-fast validation of lines 62-88: the first empty-after-strip
required field, with its localized message. -/
def validationError (access_key_id access_key_secret bucket_name
    dest_path : String) : Option String :=
  if pyStrip access_key_id = "" then some "AccessKey ID 不能为空"
  else if pyStrip access_key_secret = "" then some "AccessKey Secret 不能为空"
  else if pyStrip bucket_name = "" then some "Bucket 名称不能为空"
  else if pyStrip dest_path = "" then some "目标路径不能为空"
  else none

/-- Embedding of `upload_image`.  `net` resolves each successive
`put_object` call, `ts i` is the timestamp captured for the `i`-th
destination fragment.  `file_urls_str` is initialized to the empty string
and only reassigned after the loop completes, exactly as in the source —
so the fault handlers return it still empty. -/
def upload_image (net : Net) (ts : Nat → String) (image : ImageInput)
    (access_key_id access_key_secret endpoint bucket_name dest_path : String)
    (image_format : String) (jpeg_quality : Nat) (output_image : Bool) : Exec :=
  let file_urls_str := ""
  match validationError access_key_id access_key_secret bucket_name dest_path with
  | some msg =>
    ⟨if output_image then .imageOut image file_urls_str else .uiText [msg],
     [], [], [], none⟩
  | none =>
    let imgs := imagesOf image
    let num_images := imgs.length
    let dest_paths := _prepare_dest_paths dest_path num_images image_format ts
    let acc := runLoopAux net endpoint bucket_name image_format jpeg_quality
      (imgs.zip dest_paths) 0 ⟨[], [], [], none⟩
    match acc.fault with
    | some f =>
      ⟨if output_image then .imageOut image file_urls_str
        else .uiText [ossFaultMessage f],
       acc.attempts, acc.file_urls, acc.upload_results, some f⟩
    | none =>
      let s := joinNl acc.file_urls
      ⟨if output_image then .imageOut image s
        else .uiText (acc.upload_results ++ ["文件链接:\n" ++ s]),
       acc.attempts, acc.file_urls, acc.upload_results, none⟩

/-! ## Helper lemmas -/

theorem string_data_ext {s t : String} (h : s.data = t.data) : s = t := by
  cases s; cases t; exact congrArg String.mk h

theorem mem_dropWhile_of_not {p : Char → Bool} {c : Char} :
    ∀ {l : List Char}, c ∈ l → p c = false → c ∈ l.dropWhile p := by
  intro l
  induction l with
  | nil => intro h _; exact absurd h (List.not_mem_nil c)
  | cons x xs ih =>
    intro hmem hpc
    rw [List.dropWhile_cons]
    by_cases hx : p x = true
    · rw [if_pos hx]
      rcases List.mem_cons.mp hmem with rfl | hxs
      · exact absurd hx (by simp [hpc])
      · exact ih hxs hpc
    · rw [if_neg hx]
      exact hmem

theorem dropWhile_head?_false {p : Char → Bool} :
    ∀ (l : List Char) {c : Char}, (l.dropWhile p).head? = some c → p c = false := by
  intro l
  induction l with
  | nil => intro c h; simp [List.dropWhile] at h
  | cons x xs ih =>
    intro c h
    rw [List.dropWhile_cons] at h
    by_cases hx : p x = true
    · rw [if_pos hx] at h
      exact ih h
    · rw [if_neg hx] at h
      simp only [List.head?_cons, Option.some.injEq] at h
      subst h
      simpa using hx

theorem stripList_ne_nil {l : List Char} (h : ∃ c ∈ l, isPyWs c = false) :
    stripList l ≠ [] := by
  obtain ⟨c, hc, hws⟩ := h
  have h1 : c ∈ l.dropWhile isPyWs := mem_dropWhile_of_not hc hws
  have h2 : c ∈ (l.dropWhile isPyWs).reverse := List.mem_reverse.mpr h1
  have h3 : c ∈ (l.dropWhile isPyWs).reverse.dropWhile isPyWs :=
    mem_dropWhile_of_not h2 hws
  have h4 : (l.dropWhile isPyWs).reverse.dropWhile isPyWs ≠ [] :=
    List.ne_nil_of_mem h3
  unfold stripList
  simpa using h4

theorem exists_not_ws_of_stripList_ne_nil {l : List Char}
    (h : stripList l ≠ []) : ∃ c ∈ stripList l, isPyWs c = false := by
  unfold stripList at h ⊢
  set m := (l.dropWhile isPyWs).reverse with hm
  have h1 : m.dropWhile isPyWs ≠ [] := by
    intro he; rw [he] at h; exact h rfl
  obtain ⟨c, t, hct⟩ : ∃ c t, m.dropWhile isPyWs = c :: t := by
    cases hcase : m.dropWhile isPyWs with
    | nil => exact absurd hcase h1
    | cons c t => exact ⟨c, t, rfl⟩
  have hc : isPyWs c = false :=
    dropWhile_head?_false m (by rw [hct]; rfl)
  refine ⟨c, ?_, hc⟩
  rw [hct]
  simp

theorem stripList_cons_ws {c : Char} {l : List Char} (h : isPyWs c = true) :
    stripList (c :: l) = stripList l := by
  unfold stripList
  rw [List.dropWhile_cons, if_pos h]

theorem stripList_nil : stripList [] = [] := rfl

theorem splitNlList_cons (c : Char) (rest : List Char) :
    splitNlList (c :: rest) =
      if c = '\n' then [] :: splitNlList rest
      else (c :: (splitNlList rest).headD []) :: (splitNlList rest).tail := rfl

theorem splitNlList_ne_nil : ∀ l : List Char, splitNlList l ≠ [] := by
  intro l
  cases l with
  | nil => simp [splitNlList]
  | cons c rest =>
    rw [splitNlList_cons]
    split <;> simp

theorem fragsList_ne_nil :
    ∀ l : List Char, (∃ c ∈ l, isPyWs c = false) → fragsList l ≠ [] := by
  intro l
  induction l with
  | nil => rintro ⟨c, hc, -⟩; exact absurd hc (List.not_mem_nil c)
  | cons c rest ih =>
    intro h
    by_cases hc : isPyWs c = false
    · have hcn : ¬ (c = '\n') := by
        intro he; subst he; simp [isPyWs] at hc
      unfold fragsList
      rw [splitNlList_cons, if_neg hcn]
      have hne : stripList (c :: (splitNlList rest).headD []) ≠ [] :=
        stripList_ne_nil ⟨c, List.mem_cons_self c _, hc⟩
      simp only [List.map_cons, List.filter_cons]
      rw [if_pos (by simpa using hne)]
      simp
    · have hcw : isPyWs c = true := by
        revert hc; cases isPyWs c <;> simp
      have hrest : ∃ d ∈ rest, isPyWs d = false := by
        obtain ⟨d, hd, hdw⟩ := h
        rcases List.mem_cons.mp hd with rfl | hdr
        · exact absurd hcw (by simp [hdw])
        · exact ⟨d, hdr, hdw⟩
      have ihr := ih hrest
      suffices hEq : fragsList (c :: rest) = fragsList rest by
        rw [hEq]; exact ihr
      by_cases hcn : c = '\n'
      · subst hcn
        unfold fragsList
        rw [splitNlList_cons, if_pos rfl]
        simp [List.filter_cons, stripList_nil]
      · unfold fragsList
        rw [splitNlList_cons, if_neg hcn]
        obtain ⟨a, t, hat⟩ : ∃ a t, splitNlList rest = a :: t := by
          cases hcase : splitNlList rest with
          | nil => exact absurd hcase (splitNlList_ne_nil rest)
          | cons a t => exact ⟨a, t, rfl⟩
        rw [hat]
        simp only [List.headD_cons, List.tail_cons, List.map_cons,
          List.filter_cons]
        rw [stripList_cons_ws hcw]

theorem splitFragments_ne_nil {s : String} (h : pyStrip s ≠ "") :
    splitFragments s ≠ [] := by
  have hl : stripList s.data ≠ [] := by
    intro he
    apply h
    show (⟨stripList s.data⟩ : String) = ""
    rw [he]
  have hex := exists_not_ws_of_stripList_ne_nil hl
  have hfr : fragsList (stripList s.data) ≠ [] := by
    apply fragsList_ne_nil
    obtain ⟨c, hc, hw⟩ := hex
    exact ⟨c, hc, hw⟩
  unfold splitFragments
  simpa using hfr

theorem processAll_length (fmt : String) (ts : Nat → String) :
    ∀ (i : Nat) (l : List String), (processAll fmt ts i l).length = l.length := by
  intro i l
  induction l generalizing i with
  | nil => rfl
  | cons p rest ih => simp [processAll, ih]

theorem expandPaths_length (fr : List String) (n : Nat) :
    (expandPaths fr n).length = n := by
  unfold expandPaths
  split
  · rename_i h
    rw [List.length_take]
    omega
  · rename_i h
    simp only [List.length_append, List.length_map, List.length_range]
    omega

theorem prepare_length (d : String) (n : Nat) (fmt : String) (ts : Nat → String) :
    (_prepare_dest_paths d n fmt ts).length = n := by
  unfold _prepare_dest_paths
  rw [processAll_length, expandPaths_length]

theorem suffix_through_slashes {t w fe : List Char} (hsuf : fe <:+ (t ++ w))
    (ht : ∀ c ∈ t, c = '/') (hfe : ∀ c ∈ fe, c ≠ '/') : fe <:+ w := by
  obtain ⟨u, hu⟩ := hsuf
  rcases List.append_eq_append_iff.mp hu with ⟨u', hu1, hu2⟩ | ⟨t', ht1, ht2⟩
  · cases u' with
    | nil =>
      rw [hu2]
      simp
    | cons a as =>
      exfalso
      have ha_fe : a ∈ fe := by
        rw [hu2]
        exact List.mem_append_left _ (List.mem_cons_self _ _)
      have ha_t : a ∈ t := by
        rw [hu1]
        exact List.mem_append_right _ (List.mem_cons_self _ _)
      exact hfe a ha_fe (ht a ha_t)
  · exact ⟨t', ht2.symm⟩

theorem mem_takeWhile_pred {p : Char → Bool} :
    ∀ {l : List Char} {a : Char}, a ∈ l.takeWhile p → p a = true := by
  intro l
  induction l with
  | nil =>
    intro a h
    simp [List.takeWhile] at h
  | cons x xs ih =>
    intro a h
    rw [List.takeWhile_cons] at h
    by_cases hx : p x = true
    · rw [if_pos hx] at h
      rcases List.mem_cons.mp h with rfl | hxs
      · exact hx
      · exact ih hxs
    · rw [if_neg hx] at h
      exact absurd h (List.not_mem_nil a)

theorem suffix_lower_lstrip {x : String} {fe : List Char}
    (hfe : ∀ c ∈ fe, c ≠ '/') (h : fe <:+ (pyLower x).data) :
    fe <:+ (pyLower (pyLstripSlash x)).data := by
  have hx : x.data =
      x.data.takeWhile (fun c => c = '/') ++ x.data.dropWhile (fun c => c = '/') :=
    (List.takeWhile_append_dropWhile _ _).symm
  have h2 : (pyLower x).data =
      (x.data.takeWhile (fun c => c = '/')).map Char.toLower ++
      (x.data.dropWhile (fun c => c = '/')).map Char.toLower := by
    show x.data.map Char.toLower = _
    conv_lhs => rw [hx]
    rw [List.map_append]
  rw [h2] at h
  have hgoal : (pyLower (pyLstripSlash x)).data =
      (x.data.dropWhile (fun c => c = '/')).map Char.toLower := rfl
  rw [hgoal]
  refine suffix_through_slashes h ?_ hfe
  intro c hc
  obtain ⟨a, ha, rfl⟩ := List.mem_map.mp hc
  have := mem_takeWhile_pred ha
  have ha2 : a = '/' := by simpa using this
  subst ha2
  rfl

theorem fileExtFor_mem (fmt : String) :
    fileExtFor fmt = ".png" ∨ fileExtFor fmt = ".jpg" ∨ fileExtFor fmt = ".webp" := by
  unfold fileExtFor
  split_ifs <;> simp

theorem fileExtFor_lower (fmt : String) :
    pyLower (fileExtFor fmt) = fileExtFor fmt := by
  rcases fileExtFor_mem fmt with h | h | h <;> rw [h] <;> rfl

theorem fileExtFor_no_slash (fmt : String) :
    ∀ c ∈ (fileExtFor fmt).data, c ≠ '/' := by
  rcases fileExtFor_mem fmt with h | h | h <;> rw [h] <;> decide

theorem replaceAllFuel_nil (pat rep : List Char) :
    ∀ f : Nat, replaceAllFuel pat rep f [] = [] := by
  intro f
  cases f <;> rfl

theorem replaceAllFuel_irrel (pat rep : List Char) :
    ∀ (f₁ : Nat) (l : List Char) (f₂ : Nat), l.length ≤ f₁ → l.length ≤ f₂ →
      replaceAllFuel pat rep f₁ l = replaceAllFuel pat rep f₂ l := by
  intro f₁
  induction f₁ with
  | zero =>
    intro l f₂ h1 _
    have : l = [] := List.length_eq_zero.mp (Nat.le_zero.mp h1)
    subst this
    rw [replaceAllFuel_nil, replaceAllFuel_nil]
  | succ f₁ ih =>
    intro l f₂ h1 h2
    cases l with
    | nil => rw [replaceAllFuel_nil, replaceAllFuel_nil]
    | cons c rest =>
      cases f₂ with
      | zero => simp at h2
      | succ f₂ =>
        simp only [replaceAllFuel]
        split
        · rename_i hcond
          have hpat : pat.length ≥ 1 := by
            cases pat with
            | nil => exact absurd rfl hcond.1
            | cons a as => simp
          congr 1
          apply ih
          · simp only [List.length_drop, List.length_cons]
            simp only [List.length_cons] at h1
            omega
          · simp only [List.length_drop, List.length_cons]
            simp only [List.length_cons] at h2
            omega
        · congr 1
          apply ih
          · simp only [List.length_cons] at h1
            omega
          · simp only [List.length_cons] at h2
            omega

theorem replaceAll_cons_ne {p0 : Char} {ps rep : List Char} {c : Char}
    {l : List Char} (h : c ≠ p0) :
    replaceAll (p0 :: ps) rep (c :: l) = c :: replaceAll (p0 :: ps) rep l := by
  unfold replaceAll
  simp only [List.length_cons, replaceAllFuel]
  rw [if_neg]
  rintro ⟨-, hp⟩
  exact h (List.cons_prefix_cons.mp hp).1.symm

theorem replaceAll_not_mem {p0 : Char} {ps rep : List Char} :
    ∀ {l : List Char}, p0 ∉ l → replaceAll (p0 :: ps) rep l = l := by
  intro l
  induction l with
  | nil =>
    intro _
    rfl
  | cons c rest ih =>
    intro h
    have hc : c ≠ p0 := by
      intro he
      exact h (he ▸ List.mem_cons_self c rest)
    have hr : p0 ∉ rest := fun hm => h (List.mem_cons_of_mem c hm)
    rw [replaceAll_cons_ne hc, ih hr]

theorem replaceAll_append_pat {pat rep t : List Char} (h : pat ≠ []) :
    replaceAll pat rep (pat ++ t) = rep ++ replaceAll pat rep t := by
  obtain ⟨p0, ps, rfl⟩ : ∃ p0 ps, pat = p0 :: ps := by
    cases pat with
    | nil => exact absurd rfl h
    | cons p0 ps => exact ⟨p0, ps, rfl⟩
  show replaceAll (p0 :: ps) rep (p0 :: (ps ++ t)) = _
  unfold replaceAll
  simp only [List.length_cons, replaceAllFuel]
  have hpre : (p0 :: ps) <+: (p0 :: (ps ++ t)) := by
    show (p0 :: ps) <+: (p0 :: ps) ++ t
    exact List.prefix_append _ _
  rw [if_pos ⟨h, hpre⟩]
  have hdrop : (p0 :: (ps ++ t)).drop (ps.length + 1) = t := by
    show ((p0 :: ps) ++ t).drop (p0 :: ps).length = t
    exact List.drop_left _ _
  rw [hdrop]
  congr 1
  apply replaceAllFuel_irrel
  · simp only [List.length_append]
    omega
  · omega

theorem rstrip_no_trailing_slash {u w : List Char} (hw : w ≠ [])
    (hws : ∀ c ∈ w, c ≠ '/') : rstripSlashList (u ++ w) = u ++ w := by
  unfold rstripSlashList
  rw [List.reverse_append]
  obtain ⟨c, t, hct⟩ : ∃ c t, w.reverse = c :: t := by
    cases hcase : w.reverse with
    | nil => exact absurd (by simpa using hcase) hw
    | cons c t => exact ⟨c, t, rfl⟩
  have hcw : c ∈ w := List.mem_reverse.mp (hct ▸ List.mem_cons_self c t)
  have hcs : ¬ (c = '/') := hws c hcw
  rw [hct]
  show ((c :: (t ++ u.reverse)).dropWhile (fun x => x = '/')).reverse = u ++ w
  rw [List.dropWhile_cons, if_neg (by simpa using hcs)]
  rw [← List.cons_append, ← hct, ← List.reverse_append, List.reverse_reverse]

theorem runLoop_fault (net : Net) (ep bkt fmt : String) (q : Nat) (f : OssFault) :
    ∀ (items : List (Img × String)) (m i : Nat) (acc : LoopAcc),
      m < items.length →
      (∀ j, j < m → net (i + j) = .ok 200) →
      net (i + m) = .error f →
      (runLoopAux net ep bkt fmt q items i acc).fault = some f ∧
      (runLoopAux net ep bkt fmt q items i acc).attempts.length =
        acc.attempts.length + m + 1 ∧
      (runLoopAux net ep bkt fmt q items i acc).file_urls.length =
        acc.file_urls.length + m := by
  intro items
  induction items with
  | nil =>
    intro m i acc hm _ _
    simp at hm
  | cons item rest ih =>
    obtain ⟨img, path⟩ := item
    intro m i acc hm hok herr
    cases m with
    | zero =>
      have h0 : net i = .error f := by simpa using herr
      simp only [runLoopAux, h0]
      simp
    | succ m =>
      have h0 : net i = .ok 200 := by
        have := hok 0 (Nat.succ_pos m)
        simpa using this
      simp only [runLoopAux, h0]
      rw [if_pos trivial]
      have hok2 : ∀ j, j < m → net (i + 1 + j) = .ok 200 := by
        intro j hj
        have := hok (j + 1) (by omega)
        rwa [show i + (j + 1) = i + 1 + j by omega] at this
      have herr2 : net (i + 1 + m) = .error f := by
        rwa [show i + (m + 1) = i + 1 + m by omega] at herr
      have hm2 : m < rest.length := by
        simp only [List.length_cons] at hm
        omega
      have hres := ih m (i + 1)
        { file_urls := acc.file_urls ++ [_generate_file_url ep bkt path],
          upload_results := acc.upload_results ++ ["上传成功: " ++ path],
          attempts := acc.attempts ++ [(path, prepareItemData fmt q img path)],
          fault := acc.fault } hm2 hok2 herr2
      refine ⟨hres.1, ?_, ?_⟩
      · rw [hres.2.1]
        simp only [List.length_append, List.length_cons, List.length_nil]
        omega
      · rw [hres.2.2]
        simp only [List.length_append, List.length_cons, List.length_nil]
        omega

/-! ## Claim theorems -/

/-- Claim C1: for every valid request (all four required strings non-empty
after trimming) with `n` input images, the destination-path derivation
produces exactly `n` finalized destination identifiers, one per input
image, in input order. -/
theorem claim_C1_dest_count (akid asec bkt dest : String) (n : Nat)
    (fmt : String) (ts : Nat → String)
    (h1 : pyStrip akid ≠ "") (h2 : pyStrip asec ≠ "") (h3 : pyStrip bkt ≠ "")
    (h4 : pyStrip dest ≠ "") :
    (_prepare_dest_paths dest n fmt ts).length = n :=
  prepare_length dest n fmt ts

/-- Witness for C1 at a concrete valid request. -/
theorem claim_C1_witness :
    (_prepare_dest_paths "a.png" 2 "PNG" (fun _ => "T")).length = 2 :=
  claim_C1_dest_count "id" "sec" "bkt" "a.png" 2 "PNG" (fun _ => "T")
    (by decide) (by decide) (by decide) (by decide)

/-- Claim C5: when the template yields fewer fragments than images, the
first images get the given fragments and every remaining image gets the
last fragment with a zero-based suffix index inserted before its
extension; in particular the template with fragments `a.png`, `b.png` and
3 images yields exactly `["a.png", "b.png", "b-0.png"]`. -/
theorem claim_C5_shortfall_suffixes (frags : List String) (n : Nat)
    (ts : Nat → String) (hne : frags ≠ []) (hlt : frags.length < n) :
    expandPaths frags n =
      frags ++ (List.range (n - frags.length)).map
        (addIndexSuffix (frags.getLast?.getD "")) ∧
    _prepare_dest_paths "a.png\nb.png" 3 "PNG" ts = ["a.png", "b.png", "b-0.png"] := by
  constructor
  · unfold expandPaths
    rw [if_neg (by omega)]
  · rfl

/-- Witness for C5 at a concrete shortfall. -/
theorem claim_C5_witness :
    expandPaths ["x.png"] 2 =
      ["x.png"] ++ (List.range 1).map (addIndexSuffix "x.png") ∧
    _prepare_dest_paths "a.png\nb.png" 3 "PNG" (fun _ => "T") =
      ["a.png", "b.png", "b-0.png"] :=
  claim_C5_shortfall_suffixes ["x.png"] 2 (fun _ => "T") (by decide) (by decide)

/-- Claim C7: for every destination whose extension is not in the
recognized image-container set, no image encoding is performed — the raw
scaled pixel bytes are uploaded as-is, with content type from the fixed
extension-to-MIME table, defaulting to `application/octet-stream`; in
particular `clip.mp4` gets raw bytes with content type `video/mp4`. -/
theorem claim_C7_raw_upload (fmt : String) (q : Nat) (img : Img) (path : String)
    (h : pyLower (pySplitext path).2 ∉ image_extensions) :
    prepareItemData fmt q img path =
      (UploadData.raw (scaleBytes img),
       lookupD content_type_map (pyLower (pySplitext path).2)
         "application/octet-stream") ∧
    prepareItemData "PNG" 95 img "clip.mp4" =
      (UploadData.raw (scaleBytes img), "video/mp4") := by
  constructor
  · simp only [prepareItemData]
    rw [if_neg h]
  · rfl

/-- Witness for C7 at a concrete non-image destination. -/
theorem claim_C7_witness :
    prepareItemData "PNG" 95 ⟨[1/2, 1]⟩ "data.bin" =
      (UploadData.raw (scaleBytes ⟨[1/2, 1]⟩),
       lookupD content_type_map (pyLower (pySplitext "data.bin").2)
         "application/octet-stream") ∧
    prepareItemData "PNG" 95 ⟨[1/2, 1]⟩ "clip.mp4" =
      (UploadData.raw (scaleBytes ⟨[1/2, 1]⟩), "video/mp4") :=
  claim_C7_raw_upload "PNG" 95 ⟨[1/2, 1]⟩ "data.bin" (by decide)

/-- Counterexample to claim C8 as stated: the code strips every leading
slash, not a single one, so a fragment starting with `//` keeps no slash
at all. -/
theorem claim_C8_counterexample :
    _process_dest_path "//a.mp4" "PNG" "T" = "a.mp4" ∧
    _process_dest_path "//a.mp4" "PNG" "T" ≠ "/a.mp4" := by
  exact ⟨rfl, by decide⟩

/-- Claim C8 (amended): for every fragment (without the timestamp token)
whose extension is present and not in the recognized image-container set,
path processing returns the fragment unmodified except for stripping all
leading slashes. -/
theorem claim_C8_opaque_lstrip_all (p fmt ts : String)
    (hts : ¬ strContains timestampToken p)
    (hne : pyLower (pySplitext p).2 ≠ "")
    (hnotin : pyLower (pySplitext p).2 ∉ image_extensions) :
    _process_dest_path p fmt ts = pyLstripSlash p := by
  simp only [_process_dest_path, if_neg hts]
  rw [if_pos ⟨hne, hnotin⟩]

/-- Witness for the amended C8 at the double-slash fragment. -/
theorem claim_C8_witness :
    _process_dest_path "//a.mp4" "PNG" "X" = pyLstripSlash "//a.mp4" :=
  claim_C8_opaque_lstrip_all "//a.mp4" "PNG" "X" (by decide) (by decide) (by decide)

/-- Claim C10: the fallback to the default fragment inside the path
deriver is unreachable through `upload_image` — any destination template
that survives validation (non-empty after trimming) yields at least one
fragment, so the derivation runs on the template-derived fragments. -/
theorem claim_C10_fallback_unreachable (dest : String) (n : Nat) (fmt : String)
    (ts : Nat → String) (h : pyStrip dest ≠ "") :
    splitFragments dest ≠ [] ∧
    _prepare_dest_paths dest n fmt ts =
      processAll fmt ts 0 (expandPaths (splitFragments dest) n) := by
  have hf := splitFragments_ne_nil h
  refine ⟨hf, ?_⟩
  unfold _prepare_dest_paths
  obtain ⟨a, t, hat⟩ : ∃ a t, splitFragments dest = a :: t := by
    cases hcase : splitFragments dest with
    | nil => exact absurd hcase hf
    | cons a t => exact ⟨a, t, rfl⟩
  rw [hat]
  rfl

/-- Witness for C10 at a concrete one-line template. -/
theorem claim_C10_witness :
    splitFragments "x.png" ≠ [] ∧
    _prepare_dest_paths "x.png" 1 "PNG" (fun _ => "T") =
      processAll "PNG" (fun _ => "T") 0 (expandPaths (splitFragments "x.png") 1) :=
  claim_C10_fallback_unreachable "x.png" 1 "PNG" (fun _ => "T") (by decide)

/-- Claim C2: if any of the four required string fields is empty after
trimming, `upload_image` returns before any image encoding or network
activity (no `put_object` call is issued), with the pass-through image and
an empty URL string, or a status-only result carrying the field-specific
localized message — in particular an empty AccessKey ID yields the
AccessKey-ID message. -/
theorem claim_C2_validation_fail_fast (net : Net) (ts : Nat → String)
    (image : ImageInput) (akid asec ep bkt dp fmt : String) (q : Nat)
    (out : Bool) :
    (pyStrip akid = "" →
      (upload_image net ts image akid asec ep bkt dp fmt q out).attempts = [] ∧
      (upload_image net ts image akid asec ep bkt dp fmt q out).ret =
        (if out then .imageOut image "" else .uiText ["AccessKey ID 不能为空"])) ∧
    (pyStrip akid ≠ "" → pyStrip asec = "" →
      (upload_image net ts image akid asec ep bkt dp fmt q out).attempts = [] ∧
      (upload_image net ts image akid asec ep bkt dp fmt q out).ret =
        (if out then .imageOut image "" else .uiText ["AccessKey Secret 不能为空"])) ∧
    (pyStrip akid ≠ "" → pyStrip asec ≠ "" → pyStrip bkt = "" →
      (upload_image net ts image akid asec ep bkt dp fmt q out).attempts = [] ∧
      (upload_image net ts image akid asec ep bkt dp fmt q out).ret =
        (if out then .imageOut image "" else .uiText ["Bucket 名称不能为空"])) ∧
    (pyStrip akid ≠ "" → pyStrip asec ≠ "" → pyStrip bkt ≠ "" → pyStrip dp = "" →
      (upload_image net ts image akid asec ep bkt dp fmt q out).attempts = [] ∧
      (upload_image net ts image akid asec ep bkt dp fmt q out).ret =
        (if out then .imageOut image "" else .uiText ["目标路径不能为空"])) := by
  refine ⟨?_, ?_, ?_, ?_⟩
  · intro h1
    have hv : validationError akid asec bkt dp = some "AccessKey ID 不能为空" := by
      unfold validationError
      rw [if_pos h1]
    simp [upload_image, hv]
  · intro h1 h2
    have hv : validationError akid asec bkt dp = some "AccessKey Secret 不能为空" := by
      unfold validationError
      rw [if_neg h1, if_pos h2]
    simp [upload_image, hv]
  · intro h1 h2 h3
    have hv : validationError akid asec bkt dp = some "Bucket 名称不能为空" := by
      unfold validationError
      rw [if_neg h1, if_neg h2, if_pos h3]
    simp [upload_image, hv]
  · intro h1 h2 h3 h4
    have hv : validationError akid asec bkt dp = some "目标路径不能为空" := by
      unfold validationError
      rw [if_neg h1, if_neg h2, if_neg h3, if_pos h4]
    simp [upload_image, hv]

/-- Witness for C2 at a concrete empty AccessKey ID in status mode. -/
theorem claim_C2_witness :
    (upload_image (fun _ => .ok 200) (fun _ => "T") (.single ⟨[]⟩)
      "" "sec" "ep" "bkt" "d.png" "PNG" 95 false).attempts = [] ∧
    (upload_image (fun _ => .ok 200) (fun _ => "T") (.single ⟨[]⟩)
      "" "sec" "ep" "bkt" "d.png" "PNG" 95 false).ret =
      .uiText ["AccessKey ID 不能为空"] := by
  have h := (claim_C2_validation_fail_fast (fun _ => .ok 200) (fun _ => "T")
    (.single ⟨[]⟩) "" "sec" "ep" "bkt" "d.png" "PNG" 95 false).1 (by decide)
  exact ⟨h.1, by rw [h.2]; rfl⟩

/-- Claim C3: if the per-item storage write for item `K` of `N` raises a
storage-service fault (earlier writes returning HTTP 200), no item after
`K` is ever encoded or uploaded — exactly `K` `put_object` calls were
issued and only items `1..K-1` completed successfully. -/
theorem claim_C3_fault_aborts (net : Net) (ts : Nat → String) (imgs : List Img)
    (akid asec ep bkt dp fmt : String) (q : Nat) (out : Bool) (K : Nat)
    (f : OssFault)
    (h1 : pyStrip akid ≠ "") (h2 : pyStrip asec ≠ "") (h3 : pyStrip bkt ≠ "")
    (h4 : pyStrip dp ≠ "") (hK1 : 1 ≤ K) (hKN : K ≤ imgs.length)
    (hok : ∀ j, j < K - 1 → net j = .ok 200)
    (herr : net (K - 1) = .error f) :
    (upload_image net ts (.batch imgs) akid asec ep bkt dp fmt q out).attempts.length = K ∧
    (upload_image net ts (.batch imgs) akid asec ep bkt dp fmt q out).loop_file_urls.length = K - 1 ∧
    (upload_image net ts (.batch imgs) akid asec ep bkt dp fmt q out).fault = some f := by
  have hv : validationError akid asec bkt dp = none := by
    unfold validationError
    rw [if_neg h1, if_neg h2, if_neg h3, if_neg h4]
  have hitems : ((imagesOf (.batch imgs)).zip
      (_prepare_dest_paths dp (imagesOf (.batch imgs)).length fmt ts)).length =
      imgs.length := by
    rw [List.length_zip, prepare_length]
    simp [imagesOf]
  have hres := runLoop_fault net ep bkt fmt q f
    ((imagesOf (.batch imgs)).zip
      (_prepare_dest_paths dp (imagesOf (.batch imgs)).length fmt ts))
    (K - 1) 0 ⟨[], [], [], none⟩
    (by rw [hitems]; omega)
    (by intro j hj; rw [Nat.zero_add]; exact hok j hj)
    (by rw [Nat.zero_add]; exact herr)
  simp only [upload_image, hv]
  rw [hres.1]
  refine ⟨?_, ?_, rfl⟩
  · have := hres.2.1
    simp only [List.length_nil] at this
    rw [this]
    omega
  · have := hres.2.2
    simp only [List.length_nil] at this
    rw [this]
    omega

/-- Witness for C3: bucket-not-found on item 2 of 3 leaves exactly two
attempted writes, one completed item, and the recorded fault. -/
theorem claim_C3_witness :
    (upload_image (fun j => if j = 0 then .ok 200 else .error .noSuchBucket)
      (fun _ => "T") (.batch [⟨[]⟩, ⟨[]⟩, ⟨[]⟩]) "id" "sec"
      "https://oss-cn-hangzhou.aliyuncs.com" "bkt" "a.png\nb.png\nc.png"
      "PNG" 95 true).attempts.length = 2 ∧
    (upload_image (fun j => if j = 0 then .ok 200 else .error .noSuchBucket)
      (fun _ => "T") (.batch [⟨[]⟩, ⟨[]⟩, ⟨[]⟩]) "id" "sec"
      "https://oss-cn-hangzhou.aliyuncs.com" "bkt" "a.png\nb.png\nc.png"
      "PNG" 95 true).loop_file_urls.length = 2 - 1 ∧
    (upload_image (fun j => if j = 0 then .ok 200 else .error .noSuchBucket)
      (fun _ => "T") (.batch [⟨[]⟩, ⟨[]⟩, ⟨[]⟩]) "id" "sec"
      "https://oss-cn-hangzhou.aliyuncs.com" "bkt" "a.png\nb.png\nc.png"
      "PNG" 95 true).fault = some .noSuchBucket :=
  claim_C3_fault_aborts (fun j => if j = 0 then .ok 200 else .error .noSuchBucket)
    (fun _ => "T") [⟨[]⟩, ⟨[]⟩, ⟨[]⟩] "id" "sec"
    "https://oss-cn-hangzhou.aliyuncs.com" "bkt" "a.png\nb.png\nc.png"
    "PNG" 95 true 2 .noSuchBucket
    (by decide) (by decide) (by decide) (by decide) (by decide) (by decide)
    (by intro j hj
        have hj0 : j = 0 := by omega
        subst hj0
        rfl)
    (by rfl)

/-- Counterexample to claim C4 as stated: with item 1 of 3 uploaded
successfully (HTTP 200) and a bucket-not-found fault on item 2, the
accumulated per-item URL list holds item 1's URL, yet the fault handler
returns the empty URL string — the returned string does not contain the
URL of the item uploaded before the fault. -/
theorem claim_C4_counterexample :
    (upload_image (fun j => if j = 0 then .ok 200 else .error .noSuchBucket)
      (fun _ => "T") (.batch [⟨[]⟩, ⟨[]⟩, ⟨[]⟩]) "id" "sec"
      "https://oss-cn-hangzhou.aliyuncs.com" "bkt" "a.png\nb.png\nc.png"
      "PNG" 95 true).loop_file_urls =
      ["https://bkt.oss-cn-hangzhou.aliyuncs.com/a.png"] ∧
    (upload_image (fun j => if j = 0 then .ok 200 else .error .noSuchBucket)
      (fun _ => "T") (.batch [⟨[]⟩, ⟨[]⟩, ⟨[]⟩]) "id" "sec"
      "https://oss-cn-hangzhou.aliyuncs.com" "bkt" "a.png\nb.png\nc.png"
      "PNG" 95 true).ret = .imageOut (.batch [⟨[]⟩, ⟨[]⟩, ⟨[]⟩]) "" ∧
    ¬ strContains "https://bkt.oss-cn-hangzhou.aliyuncs.com/a.png" "" := by
  exact ⟨rfl, rfl, by decide⟩

/-- Claim C4 (amended): when a storage-service fault aborts the loop, the
call returns immediately, but the URL string returned from the fault
handler is the pre-loop empty string — the per-item URLs accumulated
before the fault are discarded (in status mode only the fault message is
returned). -/
theorem claim_C4_fault_returns_empty (net : Net) (ts : Nat → String)
    (image : ImageInput) (akid asec ep bkt dp fmt : String) (q : Nat)
    (out : Bool) (f : OssFault)
    (h : (upload_image net ts image akid asec ep bkt dp fmt q out).fault = some f) :
    (upload_image net ts image akid asec ep bkt dp fmt q out).ret =
      (if out then .imageOut image "" else .uiText [ossFaultMessage f]) := by
  cases hv : validationError akid asec bkt dp with
  | some msg =>
    exfalso
    simp only [upload_image, hv] at h
    exact Option.noConfusion h
  | none =>
    simp only [upload_image, hv] at h ⊢
    split at h
    · rename_i f2 heq
      simp at h
      subst h
      simp
    · rename_i heq
      simp at h

/-- Witness for the amended C4 at a concrete mid-batch fault. -/
theorem claim_C4_witness :
    (upload_image (fun j => if j = 0 then .ok 200 else .error .noSuchBucket)
      (fun _ => "T") (.batch [⟨[]⟩, ⟨[]⟩]) "id" "sec"
      "https://oss-cn-hangzhou.aliyuncs.com" "bkt" "a.png\nb.png"
      "PNG" 95 true).ret =
      (if true then UploadReturn.imageOut (.batch [⟨[]⟩, ⟨[]⟩]) ""
       else .uiText [ossFaultMessage .noSuchBucket]) :=
  claim_C4_fault_returns_empty
    (fun j => if j = 0 then .ok 200 else .error .noSuchBucket)
    (fun _ => "T") (.batch [⟨[]⟩, ⟨[]⟩]) "id" "sec"
    "https://oss-cn-hangzhou.aliyuncs.com" "bkt" "a.png\nb.png"
    "PNG" 95 true .noSuchBucket rfl

/-- Claim C6: for every fragment (without the timestamp token) whose
extension is absent or belongs to the recognized image set, path
processing forces the extension of the result to match the chosen output
format (via the PNG/JPEG/WEBP extension table), appending it when the
fragment ends in no recognized extension and replacing it when the
existing one mismatches; in particular `out/img` with format JPEG gives
`out/img.jpg`. -/
theorem claim_C6_extension_forced (p fmt ts : String)
    (hts : ¬ strContains timestampToken p)
    (hext : pyLower (pySplitext p).2 = "" ∨
      pyLower (pySplitext p).2 ∈ image_extensions) :
    pyEndsWith (pyLower (_process_dest_path p fmt ts)) (fileExtFor fmt) ∧
    ((¬ ∃ e ∈ image_extensions, pyEndsWith (pyLower p) e) →
      _process_dest_path p fmt ts = pyLstripSlash (p ++ fileExtFor fmt)) ∧
    ((∃ e ∈ image_extensions, pyEndsWith (pyLower p) e) →
      ¬ pyEndsWith (pyLower p) (pyLower (fileExtFor fmt)) →
      _process_dest_path p fmt ts =
        pyLstripSlash ((pySplitext p).1 ++ fileExtFor fmt)) ∧
    _process_dest_path "out/img" "JPEG" ts = "out/img.jpg" := by
  have hcond : ¬ (pyLower (pySplitext p).2 ≠ "" ∧
      pyLower (pySplitext p).2 ∉ image_extensions) := by
    rcases hext with h | h
    · intro hx; exact hx.1 h
    · intro hx; exact hx.2 h
  have hmain : _process_dest_path p fmt ts =
      pyLstripSlash
        (if ¬ ∃ e ∈ image_extensions, pyEndsWith (pyLower p) e then
          p ++ fileExtFor fmt
        else if ¬ pyEndsWith (pyLower p) (pyLower (fileExtFor fmt)) then
          (pySplitext p).1 ++ fileExtFor fmt
        else p) := by
    simp only [_process_dest_path, if_neg hts]
    rw [if_neg hcond]
  have hfeData : (fileExtFor fmt).data.map Char.toLower = (fileExtFor fmt).data := by
    have := congrArg String.data (fileExtFor_lower fmt)
    exact this
  have hfeSlash : ∀ c ∈ (fileExtFor fmt).data, c ≠ '/' := fileExtFor_no_slash fmt
  refine ⟨?_, ?_, ?_, rfl⟩
  · rw [hmain]
    by_cases h1 : ∃ e ∈ image_extensions, pyEndsWith (pyLower p) e
    · by_cases h2 : pyEndsWith (pyLower p) (pyLower (fileExtFor fmt))
      · rw [if_neg (not_not_intro h1), if_neg (not_not_intro h2)]
        show (fileExtFor fmt).data <:+ (pyLower (pyLstripSlash p)).data
        apply suffix_lower_lstrip hfeSlash
        have h2d : (pyLower (fileExtFor fmt)).data <:+ (pyLower p).data := h2
        rwa [fileExtFor_lower fmt] at h2d
      · rw [if_neg (not_not_intro h1), if_pos h2]
        show (fileExtFor fmt).data <:+
          (pyLower (pyLstripSlash ((pySplitext p).1 ++ fileExtFor fmt))).data
        apply suffix_lower_lstrip hfeSlash
        show (fileExtFor fmt).data <:+
          ((pySplitext p).1 ++ fileExtFor fmt).data.map Char.toLower
        rw [String.data_append, List.map_append, hfeData]
        exact List.suffix_append _ _
    · rw [if_pos h1]
      show (fileExtFor fmt).data <:+
        (pyLower (pyLstripSlash (p ++ fileExtFor fmt))).data
      apply suffix_lower_lstrip hfeSlash
      show (fileExtFor fmt).data <:+ (p ++ fileExtFor fmt).data.map Char.toLower
      rw [String.data_append, List.map_append, hfeData]
      exact List.suffix_append _ _
  · intro h1
    rw [hmain, if_pos h1]
  · intro h1 h2
    rw [hmain, if_neg (not_not_intro h1), if_pos h2]

/-- Witness for C6 at a concrete recognized-extension fragment. -/
theorem claim_C6_witness :
    pyEndsWith (pyLower (_process_dest_path "dir/pic.png" "WEBP" "T"))
      (fileExtFor "WEBP") ∧
    _process_dest_path "out/img" "JPEG" "T" = "out/img.jpg" := by
  have h := claim_C6_extension_forced "dir/pic.png" "WEBP" "T"
    (by decide) (by decide)
  exact ⟨h.1, h.2.2.2⟩

theorem replaceAll_https (rp t : List Char) (h : ':' ∉ t) :
    replaceAll "://".data rp ("https://".data ++ t) = "https".data ++ (rp ++ t) := by
  have h1 : "https://".data ++ t =
      'h' :: 't' :: 't' :: 'p' :: 's' :: ("://".data ++ t) := rfl
  rw [h1]
  have hcol : ("://".data : List Char) = ':' :: '/' :: '/' :: [] := rfl
  rw [hcol]
  rw [replaceAll_cons_ne (by decide), replaceAll_cons_ne (by decide),
      replaceAll_cons_ne (by decide), replaceAll_cons_ne (by decide),
      replaceAll_cons_ne (by decide)]
  rw [replaceAll_append_pat (by decide)]
  rw [replaceAll_not_mem h]
  rfl

/-- Counterexample to claim C9 as stated: the regional-domain check is on
the whole endpoint string, not on its host — an endpoint whose host has
no `oss-` but whose path does still gets the bucket inserted as a
subdomain instead of appended as a path segment. -/
theorem claim_C9_counterexample :
    _generate_file_url "https://img.example.com/oss-assets" "bkt" "d.png" =
      "https://bkt.img.example.com/oss-assets/d.png" ∧
    ¬ strContains "oss-" "img.example.com" ∧
    "https://bkt.img.example.com/oss-assets/d.png" ≠
      "https://img.example.com/oss-assets/bkt/d.png" := by
  exact ⟨rfl, by decide, by decide⟩

/-- Claim C9 (amended): the endpoint is normalized by prefixing `https://`
exactly when it does not start with `http`, and trailing slashes are
removed; if the whole normalized endpoint string contains `oss-` the
bucket name is inserted as a subdomain after the scheme separator, giving
`scheme://bucket.host/...`, otherwise it is appended as a path segment,
giving `scheme://host/bucket/...`; the destination identifier follows in
both cases. -/
theorem claim_C9_url_construction (host b d : String)
    (hne : host.data ≠ [])
    (hchars : ∀ c ∈ host.data, c ≠ ':' ∧ c ≠ '/') :
    (_generate_file_url ("https://" ++ host) b d =
       if strContains "oss-" ("https://" ++ host)
       then "https://" ++ b ++ "." ++ host ++ "/" ++ d
       else "https://" ++ host ++ "/" ++ b ++ "/" ++ d) ∧
    (¬ pyStartsWith host "http" →
       _generate_file_url host b d =
         _generate_file_url ("https://" ++ host) b d) := by
  have hstart : pyStartsWith ("https://" ++ host) "http" := by
    show "http".data <+: ("https://" ++ host).data
    rw [String.data_append]
    refine ⟨"s://".data ++ host.data, ?_⟩
    rw [← List.append_assoc]
    rfl
  have hrstrip : pyRstripSlash ("https://" ++ host) = "https://" ++ host := by
    apply string_data_ext
    show rstripSlashList (("https://" ++ host).data) = ("https://" ++ host).data
    rw [String.data_append]
    exact rstrip_no_trailing_slash hne (fun c hc => (hchars c hc).2)
  constructor
  · simp only [_generate_file_url, if_neg (not_not_intro hstart)]
    rw [hrstrip]
    split
    · apply string_data_ext
      have hX : (pyReplace ("https://" ++ host) "://" ("://" ++ b ++ ".")).data =
          "https".data ++ (("://" ++ b ++ ".").data ++ host.data) := by
        show replaceAll "://".data ("://" ++ b ++ ".").data
          ("https://" ++ host).data = _
        rw [String.data_append]
        exact replaceAll_https _ _ (fun hmem => ((hchars ':' hmem).1 rfl))
      simp only [String.data_append]
      rw [hX]
      simp [String.data_append, List.append_assoc]
    · rfl
  · intro hns
    simp only [_generate_file_url, if_pos hns, if_neg (not_not_intro hstart)]

/-- Witness for the amended C9 at a concrete regional endpoint host. -/
theorem claim_C9_witness :
    (_generate_file_url ("https://" ++ "oss-cn-hangzhou.aliyuncs.com") "bkt" "x.png" =
       if strContains "oss-" ("https://" ++ "oss-cn-hangzhou.aliyuncs.com")
       then "https://" ++ "bkt" ++ "." ++ "oss-cn-hangzhou.aliyuncs.com" ++ "/" ++ "x.png"
       else "https://" ++ "oss-cn-hangzhou.aliyuncs.com" ++ "/" ++ "bkt" ++ "/" ++ "x.png") ∧
    (¬ pyStartsWith "oss-cn-hangzhou.aliyuncs.com" "http" →
       _generate_file_url "oss-cn-hangzhou.aliyuncs.com" "bkt" "x.png" =
         _generate_file_url ("https://" ++ "oss-cn-hangzhou.aliyuncs.com") "bkt" "x.png") :=
  claim_C9_url_construction "oss-cn-hangzhou.aliyuncs.com" "bkt" "x.png"
    (by decide) (by decide)
